import Mathlib

/-!
Verification of the s3-warden scanner (main.go): a shallow embedding of its
grant classification, region resolution, per-bucket pipeline, paginated object
enumeration with early exit, and the worker-pool orchestrator, together with
theorems settling the specification claims.

Remote interactions are modelled by explicit response data supplied to each
function: an `Option` response stands for a call that may fail, and a `none`
result of the classifier stands for the nil-pointer dereference panic that the
Go code performs when a Group grantee carries a nil URI.
-/

namespace S3Warden

/-- Permission of a grant, from `types.Permission` as matched in main.go
(Read, Write, FullControl; every other value falls through the switch). -/
inductive Permission
  | read
  | write
  | fullControl
  | other
deriving DecidableEq, Repr

/-- Grantee type, from `types.Type` as compared in main.go
(only `types.TypeGroup` is distinguished). -/
inductive GranteeType
  | group
  | nonGroup
deriving DecidableEq, Repr

/-- A grantee: its type, and its URI field, which in the Go SDK is `*string`
and hence may be nil (`none`). -/
structure Grantee where
  type : GranteeType
  uri : Option String
deriving DecidableEq, Repr

/-- An access-control grant as consumed by the classification loops. -/
structure Grant where
  grantee : Grantee
  permission : Permission
deriving DecidableEq, Repr

/-- The well-known all-users group URI compared against in main.go. -/
def allUsersURI : String := "http://acs.amazonaws.com/groups/global/AllUsers"

/-- One iteration of the classification loop of `checkBucketACL` /
`iterateBucket`: evaluates
`grant.Grantee.Type == types.TypeGroup && *grant.Grantee.URI == allUsersURI`
and updates the `(hasPublicRead, hasPublicWrite)` flags.  Dereferencing a nil
URI (`none`) of a Group grantee panics, modelled by the `none` result. -/
def classifyStep (acc : Bool × Bool) (g : Grant) : Option (Bool × Bool) :=
  match g.grantee.type with
  | GranteeType.group =>
    match g.grantee.uri with
    | none => none
    | some u =>
      if u = allUsersURI then
        match g.permission with
        | Permission.read => some (true, acc.2)
        | Permission.write => some (acc.1, true)
        | Permission.fullControl => some (acc.1, true)
        | Permission.other => some acc
      else some acc
  | GranteeType.nonGroup => some acc

/-- The full classification loop over `aclOutput.Grants`, starting from
`hasPublicRead = false`, `hasPublicWrite = false`; the result pair is
`(hasPublicRead, hasPublicWrite)`, and `none` is the panic. -/
def classifyGrants (gs : List Grant) : Option (Bool × Bool) :=
  gs.foldlM classifyStep (false, false)

/-- A grant whose classification dereferences a nil pointer: grantee type is
Group and its URI is nil. -/
def badGrant (g : Grant) : Prop :=
  g.grantee.type = GranteeType.group ∧ g.grantee.uri = none

instance (g : Grant) : Decidable (badGrant g) := by
  unfold badGrant; infer_instance

/-- A public grant: Group grantee whose URI is the all-users URI. -/
def isPublicGrant (g : Grant) : Prop :=
  g.grantee.type = GranteeType.group ∧ g.grantee.uri = some allUsersURI

instance (g : Grant) : Decidable (isPublicGrant g) := by
  unfold isPublicGrant; infer_instance

/-- Boolean test: this grant makes `hasPublicRead` true. -/
def grantPublicRead (g : Grant) : Bool :=
  decide (isPublicGrant g) && decide (g.permission = Permission.read)

/-- Boolean test: this grant makes `hasPublicWrite` true. -/
def grantPublicWrite (g : Grant) : Bool :=
  decide (isPublicGrant g) &&
    (decide (g.permission = Permission.write) ||
     decide (g.permission = Permission.fullControl))


/-- Kinds of findings the scanner can report. -/
inductive FindingKind
  | publicRead
  | publicWrite
  | openListing
  | uploadAllowed
  | bucketPolicyWritable
  | objectPolicyWritable
deriving DecidableEq, Repr

/-- One line of standard output: either a finding line (rendered with color
when printed through the color package, i.e. in verbose mode) or a plain
diagnostic line. -/
inductive Line
  | finding (kind : FindingKind) (bucket : String) (key : Option String) (colored : Bool)
  | diag (msg : String)
deriving DecidableEq, Repr

/-- How a piece of the pipeline terminated: `go` is normal completion,
`stop` is the early return of `iterateBucket` at the issue cap, `crash` is
the nil-pointer panic of the classification loop. -/
inductive Step
  | go
  | stop
  | crash
deriving DecidableEq, Repr

/-- Failure modes of `getBucketRegion`. -/
inductive RegionError
  | networkError
  | regionNotFound
deriving DecidableEq, Repr

/-- `resp.Header.Get` returns the empty string when the header is absent. -/
def headerGet (h : Option String) : String := h.getD ""

/-- `getBucketRegion`: the HEAD probe either fails outright (`none`, a
network error) or yields a response whose region header is `hdr`; an empty
header value means the region was not found. -/
def getBucketRegion (probe : Option (Option String)) : Except RegionError String :=
  match probe with
  | none => Except.error RegionError.networkError
  | some hdr =>
    let region := headerGet hdr
    if region = "" then Except.error RegionError.regionNotFound
    else Except.ok region

/-- `checkOpenListing`: `listOk` is whether the one-key ListObjectsV2 call
succeeded; success is reported as a possible open listing (yellow in verbose
mode), failure only narrated in verbose mode. -/
def checkOpenListing (vb : Bool) (bucket : String) (listOk : Bool) : List Line :=
  if listOk then
    [Line.finding FindingKind.openListing bucket none vb]
  else
    if vb then [Line.diag ("No open directory listing found in: " ++ bucket)] else []

/-- `checkBucketACL`: `acl` is the GetBucketAcl response (`none` = fetch
error).  On success the classification loop runs; a nil-URI Group grantee
panics before any finding is printed. -/
def checkBucketACL (vb : Bool) (bucket : String) (acl : Option (List Grant)) :
    List Line × Step :=
  match acl with
  | none =>
    ((if vb then [Line.diag ("Failed to get ACL for bucket " ++ bucket)] else []), Step.go)
  | some grants =>
    match classifyGrants grants with
    | none => ([], Step.crash)
    | some (hasPublicRead, hasPublicWrite) =>
      ((if hasPublicWrite then
          [Line.finding FindingKind.publicWrite bucket none vb] else []) ++
       (if hasPublicRead then
          [Line.finding FindingKind.publicRead bucket none vb] else []) ++
       (if vb && !hasPublicRead && !hasPublicWrite then
          [Line.diag ("No public access found on bucket " ++ bucket)] else []),
       Step.go)

/-- `testUpload`: attempts the PutObject probe; `uploadOk` is whether the
call succeeded.  The failure path returns silently. -/
def testUpload (vb : Bool) (bucket : String) (uploadOk : Bool) : List Line :=
  (if vb then [Line.diag ("Attempting to upload file to " ++ bucket)] else []) ++
  (if uploadOk then [Line.finding FindingKind.uploadAllowed bucket none vb] else [])

/-- `putBucketACP`: attempts the PutBucketAcl probe; the failure path
returns silently. -/
def putBucketACP (vb : Bool) (bucket : String) (putOk : Bool) : List Line :=
  (if vb then [Line.diag ("Attempting to write bucket ACP to " ++ bucket)] else []) ++
  (if putOk then [Line.finding FindingKind.bucketPolicyWritable bucket none vb] else [])

/-- `putObjectACP`: attempts the PutObjectAcl probe on one object; failure is
narrated in verbose mode only. -/
def putObjectACP (vb : Bool) (bucket : String) (key : String) (putOk : Bool) : List Line :=
  (if vb then
    [Line.diag ("Attempting to write object ACP to " ++ bucket ++ "/" ++ key)] else []) ++
  (if putOk then
    [Line.finding FindingKind.objectPolicyWritable bucket (some key) vb]
   else if vb then
    [Line.diag ("Failed to write object ACP to " ++ bucket ++ "/" ++ key)] else [])

/-- An object of a listing page: its key and the GetObjectAcl response for it
(`none` = fetch error). -/
structure S3Object where
  key : String
  aclResult : Option (List Grant)
deriving DecidableEq, Repr

/-- The inner loop of `iterateBucket` over the objects of one page, carrying
`issueCounter`.  Returns the emitted lines, the final counter, how the loop
ended, and the objects of this page left unexamined by an early end. -/
def iterateObjects (vb aggr : Bool) (bucket : String) (putObj : String → Bool) :
    List S3Object → Nat → List Line × Nat × Step × List S3Object
  | [], c => ([], c, Step.go, [])
  | o :: rest, c =>
    let pre :=
      (if aggr then putObjectACP vb bucket o.key (putObj o.key) else []) ++
      (if vb then [Line.diag ("Checking ACP on " ++ bucket ++ "/" ++ o.key)] else [])
    match o.aclResult with
    | none =>
      let failLines := if vb then
        [Line.diag ("Failed to get ACL for object " ++ bucket ++ "/" ++ o.key)] else []
      let (ls, c2, s, rem) := iterateObjects vb aggr bucket putObj rest c
      (pre ++ failLines ++ ls, c2, s, rem)
    | some grants =>
      match classifyGrants grants with
      | none => (pre, c, Step.crash, rest)
      | some (hasPublicRead, hasPublicWrite) =>
        if hasPublicWrite then
          let wLine := [Line.finding FindingKind.publicWrite bucket (some o.key) vb]
          if c + 1 ≥ 5 then
            (pre ++ wLine ++
              (if vb then
                [Line.diag ("Found 5 objects with public write permissions in " ++
                  bucket ++ ", skipping the rest.")] else []),
             c + 1, Step.stop, rest)
          else
            let rLines := if hasPublicRead then
              [Line.finding FindingKind.publicRead bucket (some o.key) vb] else []
            let (ls, c2, s, rem) := iterateObjects vb aggr bucket putObj rest (c + 1)
            (pre ++ wLine ++ rLines ++ ls, c2, s, rem)
        else
          let rLines := if hasPublicRead then
            [Line.finding FindingKind.publicRead bucket (some o.key) vb] else []
          let (ls, c2, s, rem) := iterateObjects vb aggr bucket putObj rest c
          (pre ++ rLines ++ ls, c2, s, rem)

/-- The page loop of `iterateBucket`: each entry of `pages` is one
`NextPage` result (`none` = pagination error, which breaks the loop).
Returns the emitted lines, the final counter, how the loop ended, the
unexamined objects of the aborted page, and the pages never fetched. -/
def iteratePages (vb aggr : Bool) (bucket : String) (putObj : String → Bool) :
    List (Option (List S3Object)) → Nat →
      List Line × Nat × Step × List S3Object × List (Option (List S3Object))
  | [], c => ([], c, Step.go, [], [])
  | none :: rest, c =>
    ((if vb then [Line.diag ("Failed to iterate page in bucket " ++ bucket)] else []),
     c, Step.go, [], rest)
  | some objs :: rest, c =>
    match iterateObjects vb aggr bucket putObj objs c with
    | (ls, c1, Step.go, _) =>
      let (ls2, c2, s, remO, remP) := iteratePages vb aggr bucket putObj rest c1
      (ls ++ ls2, c2, s, remO, remP)
    | (ls, c1, Step.stop, remO) => (ls, c1, Step.stop, remO, rest)
    | (ls, c1, Step.crash, remO) => (ls, c1, Step.crash, remO, rest)

/-- `iterateBucket`: the full enumeration phase, starting with
`issueCounter = 0`. -/
def iterateBucket (vb aggr : Bool) (bucket : String) (putObj : String → Bool)
    (pages : List (Option (List S3Object))) :
    List Line × Nat × Step × List S3Object × List (Option (List S3Object)) :=
  iteratePages vb aggr bucket putObj pages 0

/-- The scan configuration flags set once at startup. -/
structure ScanConfig where
  verbose : Bool
  quick : Bool
  aggressive : Bool
deriving DecidableEq, Repr

/-- All remote responses one bucket task can observe. -/
structure BucketEnv where
  regionProbe : Option (Option String)
  bucketAcl : Option (List Grant)
  listOk : Bool
  uploadOk : Bool
  putAclOk : Bool
  putObj : String → Bool
  pages : List (Option (List S3Object))

/-- `processBucket`: the per-bucket pipeline, in source order: region
resolution (failure abandons the bucket), bucket-ACL check, open-listing
check, quick-mode early return, aggressive probes, object enumeration. -/
def processBucket (cfg : ScanConfig) (bucket : String) (env : BucketEnv) :
    List Line × Step :=
  match getBucketRegion env.regionProbe with
  | Except.error _ =>
    ((if cfg.verbose then [Line.diag ("Unable to get the region for " ++ bucket)] else []),
     Step.go)
  | Except.ok region =>
    let regionLines := if cfg.verbose then
        [Line.diag ("Bucket " ++ bucket ++ " found in Region " ++ region)] else []
    match checkBucketACL cfg.verbose bucket env.bucketAcl with
    | (aclLines, Step.crash) => (regionLines ++ aclLines, Step.crash)
    | (aclLines, _) =>
      let listLines := checkOpenListing cfg.verbose bucket env.listOk
      if cfg.quick then (regionLines ++ aclLines ++ listLines, Step.go)
      else
        let probeLines := if cfg.aggressive then
            testUpload cfg.verbose bucket env.uploadOk ++
            putBucketACP cfg.verbose bucket env.putAclOk
          else []
        let (iterLines, _, s2, _, _) :=
          iterateBucket cfg.verbose cfg.aggressive bucket env.putObj env.pages
        (regionLines ++ aclLines ++ listLines ++ probeLines ++ iterLines, s2)

/-- Projection of an output transcript to the findings it reports, with the
color decoration stripped. -/
def findingsOf (ls : List Line) : List (FindingKind × String × Option String) :=
  ls.filterMap fun l =>
    match l with
    | Line.finding k b key _ => some (k, b, key)
    | Line.diag _ => none

/-- Pipeline stages of one bucket task. -/
inductive Stage
  | resolveRegion
  | checkBucketACL
  | checkOpenListing
  | probeBucket
  | enumerateObjects
  | done
deriving DecidableEq, Repr

/-- The sequence of pipeline stages `processBucket` enters for one bucket:
the control flow of `processBucket`, with a classification panic ending the
trace without reaching `done`. -/
def stageTrace (cfg : ScanConfig) (bucket : String) (env : BucketEnv) : List Stage :=
  Stage.resolveRegion ::
    match getBucketRegion env.regionProbe with
    | Except.error _ => [Stage.done]
    | Except.ok _ =>
      Stage.checkBucketACL ::
        match (checkBucketACL cfg.verbose bucket env.bucketAcl).2 with
        | Step.crash => []
        | _ =>
          Stage.checkOpenListing ::
            if cfg.quick then [Stage.done]
            else
              (if cfg.aggressive then [Stage.probeBucket] else []) ++
              Stage.enumerateObjects ::
                match (iterateBucket cfg.verbose cfg.aggressive bucket
                    env.putObj env.pages).2.2.1 with
                | Step.crash => []
                | _ => [Stage.done]

/-- Number of finding lines of kind `k` in a transcript. -/
def countFindings (k : FindingKind) (ls : List Line) : Nat :=
  ls.countP fun l =>
    match l with
    | Line.finding k2 _ _ _ => decide (k2 = k)
    | Line.diag _ => false

/-- An object whose ACL fetch succeeds and classifies as publicly writable. -/
def objWrite (o : S3Object) : Bool :=
  match o.aclResult with
  | none => false
  | some gs =>
    match classifyGrants gs with
    | none => false
    | some (_, w) => w

/-- An object whose ACL fetch succeeds and classifies as publicly readable
but not publicly writable. -/
def objReadOnly (o : S3Object) : Bool :=
  match o.aclResult with
  | none => false
  | some gs =>
    match classifyGrants gs with
    | none => false
    | some (r, w) => r && !w

/-- Total number of objects in the successfully fetched pages of a listing. -/
def pagesLen : List (Option (List S3Object)) → Nat
  | [] => 0
  | none :: rest => pagesLen rest
  | some objs :: rest => objs.length + pagesLen rest

/-- Successor relation of the pipeline state machine of the specification:
`ResolveRegion → CheckBucketACL → CheckOpenListing → (quick? → Done) →
(aggressive? → ProbeBucket) → EnumerateObjects → Done`, with region-resolution
failure jumping from `ResolveRegion` straight to `Done`. -/
def stageNext : Stage → Stage → Bool
  | Stage.resolveRegion, Stage.checkBucketACL => true
  | Stage.resolveRegion, Stage.done => true
  | Stage.checkBucketACL, Stage.checkOpenListing => true
  | Stage.checkOpenListing, Stage.done => true
  | Stage.checkOpenListing, Stage.probeBucket => true
  | Stage.checkOpenListing, Stage.enumerateObjects => true
  | Stage.probeBucket, Stage.enumerateObjects => true
  | Stage.enumerateObjects, Stage.done => true
  | _, _ => false

/-- Status of one worker goroutine of the pool in main(). -/
inductive WStatus
  | idle
  | busy (bucket : String)
  | exited
deriving DecidableEq, Repr

/-- State of the orchestrator of main(): the stdin lines not yet sent, whether
`close(bucketsChan)` has run, the worker goroutines, and the log of buckets
whose `processBucket` call has returned. -/
structure PoolState where
  pending : List String
  closed : Bool
  workers : List WStatus
  processed : List String
deriving DecidableEq, Repr

/-- The bucket a worker currently holds, if any. -/
def busyOf : WStatus → List String
  | WStatus.busy b => [b]
  | _ => []

/-- Buckets currently being processed by some worker. -/
def busyBuckets (ws : List WStatus) : List String :=
  ws.flatMap busyOf

/-- Interleaving semantics of main(): a send on the unbuffered channel
completes only as a rendezvous with an idle worker pulling from
`range bucketsChan`; `close` runs only after every line has been sent; a
worker leaves its receive loop only once the channel is closed and drained. -/
inductive PoolStep : PoolState → PoolState → Prop
  | handoff (s : PoolState) (b : String) (rest : List String) (i : Nat) :
      s.pending = b :: rest → s.closed = false →
      s.workers[i]? = some WStatus.idle →
      PoolStep s ⟨rest, false, s.workers.set i (WStatus.busy b), s.processed⟩
  | finish (s : PoolState) (b : String) (i : Nat) :
      s.workers[i]? = some (WStatus.busy b) →
      PoolStep s ⟨s.pending, s.closed, s.workers.set i WStatus.idle, s.processed ++ [b]⟩
  | closeChan (s : PoolState) :
      s.pending = [] → s.closed = false →
      PoolStep s ⟨[], true, s.workers, s.processed⟩
  | workerExit (s : PoolState) (i : Nat) :
      s.pending = [] → s.closed = true →
      s.workers[i]? = some WStatus.idle →
      PoolStep s ⟨[], true, s.workers.set i WStatus.exited, s.processed⟩

/-- Startup state of main(): all stdin lines pending, channel open,
`concurrency` idle workers, nothing processed. -/
def initState (concurrency : Nat) (input : List String) : PoolState :=
  ⟨input, false, List.replicate concurrency WStatus.idle, []⟩

/-- States main() can reach from startup. -/
def poolReachable (concurrency : Nat) (input : List String) (s : PoolState) : Prop :=
  Relation.ReflTransGen PoolStep (initState concurrency input) s

/-- The process-exit state: input exhausted and sent, channel closed, and
`wg.Wait()` has seen every worker return. -/
def poolTerminal (s : PoolState) : Prop :=
  s.pending = [] ∧ s.closed = true ∧ ∀ w ∈ s.workers, w = WStatus.exited

/-- Everything the run owes the input: buckets not yet handed off, buckets
in flight, and buckets fully processed. -/
def inFlight (s : PoolState) : Multiset String :=
  (s.pending : Multiset String) + (busyBuckets s.workers : Multiset String) +
    (s.processed : Multiset String)

-- ### Classifier lemmas

theorem classifyStep_eq_none {acc : Bool × Bool} {g : Grant} :
    classifyStep acc g = none ↔ badGrant g := by
  unfold classifyStep badGrant
  rcases g with ⟨⟨t, u⟩, p⟩
  cases t <;> cases u <;> simp <;>
    first
    | rfl
    | (rename_i v
       by_cases hv : v = allUsersURI <;> simp [hv] <;> cases p <;> simp)

theorem classifyStep_some {acc : Bool × Bool} {g : Grant} (h : ¬ badGrant g) :
    classifyStep acc g =
      some (acc.1 || grantPublicRead g, acc.2 || grantPublicWrite g) := by
  unfold classifyStep
  rcases g with ⟨⟨t, u⟩, p⟩
  cases t with
  | group =>
    cases u with
    | none => exact absurd ⟨rfl, rfl⟩ h
    | some v =>
      by_cases hv : v = allUsersURI
      · subst hv
        cases p <;>
          simp [grantPublicRead, grantPublicWrite, isPublicGrant]
      · cases p <;>
          simp [grantPublicRead, grantPublicWrite, isPublicGrant, hv]
  | nonGroup =>
    cases p <;>
      simp [grantPublicRead, grantPublicWrite, isPublicGrant]

/-- Generalized accumulator characterization of the classification loop on
lists free of nil-URI Group grantees. -/
theorem classifyGrants_loop (gs : List Grant) (acc : Bool × Bool)
    (h : ∀ g ∈ gs, ¬ badGrant g) :
    gs.foldlM classifyStep acc =
      some (acc.1 || gs.any grantPublicRead, acc.2 || gs.any grantPublicWrite) := by
  induction gs generalizing acc with
  | nil => simp [List.foldlM]
  | cons g rest ih =>
    have hg : ¬ badGrant g := h g (List.mem_cons_self g rest)
    have hrest : ∀ x ∈ rest, ¬ badGrant x := fun x hx => h x (List.mem_cons_of_mem g hx)
    rw [List.foldlM_cons, classifyStep_some hg]
    simp only [Option.bind_eq_bind, Option.some_bind]
    rw [ih _ hrest]
    simp [Bool.or_assoc]

/-- On safe input the loop computes exactly the two existential flags. -/
theorem classifyGrants_eq (gs : List Grant) (h : ∀ g ∈ gs, ¬ badGrant g) :
    classifyGrants gs = some (gs.any grantPublicRead, gs.any grantPublicWrite) := by
  have := classifyGrants_loop gs (false, false) h
  simpa [classifyGrants] using this

/-- If some grant of the list is bad, the loop panics from any accumulator. -/
theorem classifyLoop_none_of_bad (gs : List Grant)
    (hbad : ∃ g ∈ gs, badGrant g) (acc : Bool × Bool) :
    gs.foldlM classifyStep acc = none := by
  induction gs generalizing acc with
  | nil => exact absurd hbad (by simp)
  | cons x rest ih =>
    rw [List.foldlM_cons]
    rcases hbad with ⟨g, hg, hb⟩
    rcases List.mem_cons.mp hg with hgx | hgrest
    · subst hgx
      rw [classifyStep_eq_none.mpr hb]
      rfl
    · by_cases hx : badGrant x
      · rw [classifyStep_eq_none.mpr hx]; rfl
      · rw [classifyStep_some hx]
        simp only [Option.bind_eq_bind, Option.some_bind]
        exact ih ⟨g, hgrest, hb⟩ _

/-- The loop panics exactly when some grant has a Group grantee with nil URI. -/
theorem classifyGrants_eq_none (gs : List Grant) :
    classifyGrants gs = none ↔ ∃ g ∈ gs, badGrant g := by
  constructor
  · intro hnone
    by_contra hno
    push_neg at hno
    rw [classifyGrants_eq gs hno] at hnone
    exact Option.noConfusion hnone
  · intro h
    exact classifyLoop_none_of_bad gs h _

-- ### Transcript lemmas

theorem findingsOf_append (l1 l2 : List Line) :
    findingsOf (l1 ++ l2) = findingsOf l1 ++ findingsOf l2 := by
  simp [findingsOf, List.filterMap_append]

theorem findingsOf_iteDiag (vb : Bool) (m : String) :
    findingsOf (if vb then [Line.diag m] else []) = [] := by
  cases vb <;> simp [findingsOf]

@[simp] theorem findingsOf_nil : findingsOf [] = [] := rfl

@[simp] theorem findingsOf_diag_cons (m : String) (ls : List Line) :
    findingsOf (Line.diag m :: ls) = findingsOf ls := rfl

@[simp] theorem findingsOf_finding_cons (k : FindingKind) (b : String)
    (key : Option String) (col : Bool) (ls : List Line) :
    findingsOf (Line.finding k b key col :: ls) = (k, b, key) :: findingsOf ls := rfl

@[simp] theorem findingsOf_ite (b : Bool) (l1 l2 : List Line) :
    findingsOf (if b then l1 else l2) =
      if b then findingsOf l1 else findingsOf l2 := by
  cases b <;> rfl

/-- The findings of the object-policy probe do not depend on verbosity. -/
theorem findingsOf_putObjectACP (vb : Bool) (b k : String) (ok : Bool) :
    findingsOf (putObjectACP vb b k ok) =
      if ok then [(FindingKind.objectPolicyWritable, b, some k)] else [] := by
  cases vb <;> cases ok <;> simp [putObjectACP, findingsOf]

/-- The findings of the upload probe do not depend on verbosity. -/
theorem findingsOf_testUpload (vb : Bool) (b : String) (ok : Bool) :
    findingsOf (testUpload vb b ok) =
      if ok then [(FindingKind.uploadAllowed, b, none)] else [] := by
  cases vb <;> cases ok <;> simp [testUpload, findingsOf]

/-- The findings of the bucket-policy probe do not depend on verbosity. -/
theorem findingsOf_putBucketACP (vb : Bool) (b : String) (ok : Bool) :
    findingsOf (putBucketACP vb b ok) =
      if ok then [(FindingKind.bucketPolicyWritable, b, none)] else [] := by
  cases vb <;> cases ok <;> simp [putBucketACP, findingsOf]

/-- The findings of the open-listing check do not depend on verbosity. -/
theorem findingsOf_checkOpenListing (vb : Bool) (b : String) (ok : Bool) :
    findingsOf (checkOpenListing vb b ok) =
      if ok then [(FindingKind.openListing, b, none)] else [] := by
  cases vb <;> cases ok <;> simp [checkOpenListing, findingsOf]

/-- Neither the findings nor the termination status of the bucket-ACL check
depend on verbosity. -/
theorem checkBucketACL_vb (b : String) (acl : Option (List Grant)) :
    findingsOf (checkBucketACL true b acl).1 = findingsOf (checkBucketACL false b acl).1 ∧
    (checkBucketACL true b acl).2 = (checkBucketACL false b acl).2 := by
  cases acl with
  | none => simp [checkBucketACL]
  | some gs =>
    cases hc : classifyGrants gs with
    | none => simp [checkBucketACL, hc]
    | some p =>
      obtain ⟨r, w⟩ := p
      cases r <;> cases w <;> simp [checkBucketACL, hc]

/-- Every finding of the bucket-ACL check is a bucket-level public-write or
public-read finding. -/
theorem checkBucketACL_findings (vb : Bool) (bucket : String)
    (acl : Option (List Grant)) :
    ∀ f ∈ findingsOf (checkBucketACL vb bucket acl).1,
      f = (FindingKind.publicWrite, bucket, none) ∨
      f = (FindingKind.publicRead, bucket, none) := by
  intro f hf
  cases acl with
  | none => cases vb <;> simp [checkBucketACL, findingsOf] at hf
  | some gs =>
    cases hc : classifyGrants gs with
    | none => simp [checkBucketACL, hc, findingsOf] at hf
    | some p =>
      obtain ⟨r, w⟩ := p
      cases r <;> cases w <;> cases vb <;>
        simp [checkBucketACL, hc, findingsOf] at hf <;> tauto

/-- Every finding of the open-listing check is a bucket-level open-listing
finding. -/
theorem checkOpenListing_findings (vb : Bool) (bucket : String) (ok : Bool) :
    ∀ f ∈ findingsOf (checkOpenListing vb bucket ok),
      f = (FindingKind.openListing, bucket, none) := by
  intro f hf
  unfold checkOpenListing at hf
  cases ok <;> cases vb <;> simp [findingsOf] at hf <;> tauto

-- ### Claim C1

/-- Claim C1, counterexample: the classifier does not compute both flags for
every grant list — on a list holding a Group grant with nil URI the
classification loop panics and yields no flags at all. -/
theorem classifier_not_total_cex :
    classifyGrants [⟨⟨GranteeType.group, none⟩, Permission.read⟩] = none ∧
    ¬ ∃ p : Bool × Bool,
      classifyGrants [⟨⟨GranteeType.group, none⟩, Permission.read⟩] = some p := by
  constructor
  · rfl
  · rintro ⟨p, hp⟩
    rw [show classifyGrants [⟨⟨GranteeType.group, none⟩, Permission.read⟩] = none
      from rfl] at hp
    exact Option.noConfusion hp

/-- Claim C1 as amended: on every grant list in which each Group grantee
carries a non-nil URI, the classifier computes both flags; publicWrite is true
iff a public grant with Write or FullControl permission exists, publicRead is
true iff a public grant with Read permission exists, the result is
order-independent, and both flags can hold simultaneously. -/
theorem grant_classifier_characterization :
    (∀ gs : List Grant, (∀ g ∈ gs, ¬ badGrant g) →
      ∃ r w : Bool, classifyGrants gs = some (r, w) ∧
        (w = true ↔ ∃ g ∈ gs, isPublicGrant g ∧
          (g.permission = Permission.write ∨ g.permission = Permission.fullControl)) ∧
        (r = true ↔ ∃ g ∈ gs, isPublicGrant g ∧ g.permission = Permission.read)) ∧
    (∀ gs gs2 : List Grant, gs.Perm gs2 → (∀ g ∈ gs, ¬ badGrant g) →
      classifyGrants gs = classifyGrants gs2) ∧
    (∃ gs : List Grant, classifyGrants gs = some (true, true)) := by
  refine ⟨?_, ?_, ?_⟩
  · intro gs h
    refine ⟨gs.any grantPublicRead, gs.any grantPublicWrite, classifyGrants_eq gs h, ?_, ?_⟩
    · simp [List.any_eq_true, grantPublicWrite, Bool.and_eq_true, Bool.or_eq_true,
        decide_eq_true_eq, and_assoc]
    · simp [List.any_eq_true, grantPublicRead, Bool.and_eq_true, decide_eq_true_eq,
        and_assoc]
  · intro gs gs2 hperm h
    have h2 : ∀ g ∈ gs2, ¬ badGrant g := fun g hg => h g (hperm.mem_iff.mpr hg)
    rw [classifyGrants_eq gs h, classifyGrants_eq gs2 h2]
    have ha : ∀ f : Grant → Bool, gs.any f = gs2.any f := by
      intro f
      rw [Bool.eq_iff_iff]
      simp only [List.any_eq_true]
      exact ⟨fun ⟨x, hx, hf⟩ => ⟨x, hperm.mem_iff.mp hx, hf⟩,
             fun ⟨x, hx, hf⟩ => ⟨x, hperm.mem_iff.mpr hx, hf⟩⟩
    rw [ha, ha]
  · exact ⟨[⟨⟨GranteeType.group, some allUsersURI⟩, Permission.write⟩,
            ⟨⟨GranteeType.group, some allUsersURI⟩, Permission.read⟩], by decide⟩

/-- Witness for the amended claim C1, at a one-grant public FullControl list. -/
theorem grant_classifier_characterization_witness :
    ∃ r w : Bool,
      classifyGrants [⟨⟨GranteeType.group, some allUsersURI⟩, Permission.fullControl⟩] =
        some (r, w) ∧
      (w = true ↔ ∃ g ∈ [⟨⟨GranteeType.group, some allUsersURI⟩, Permission.fullControl⟩],
        isPublicGrant g ∧
          (g.permission = Permission.write ∨ g.permission = Permission.fullControl)) ∧
      (r = true ↔ ∃ g ∈ [⟨⟨GranteeType.group, some allUsersURI⟩, Permission.fullControl⟩],
        isPublicGrant g ∧ g.permission = Permission.read) :=
  grant_classifier_characterization.1
    [⟨⟨GranteeType.group, some allUsersURI⟩, Permission.fullControl⟩] (by decide)

-- ### Claim C9

/-- Claim C9: the classification is not total — any grant list holding a
Group grantee with nil URI makes the classification loop panic, crashing both
the bucket-ACL check and the per-object check, while every list free of such
grants classifies successfully. -/
theorem nil_group_uri_crashes :
    (∀ gs : List Grant, (∃ g ∈ gs, badGrant g) →
      classifyGrants gs = none ∧
      ∀ (vb : Bool) (bucket : String),
        (checkBucketACL vb bucket (some gs)).2 = Step.crash) ∧
    (∀ (vb aggr : Bool) (bucket : String) (putObj : String → Bool)
        (o : S3Object) (rest : List S3Object) (c : Nat) (gs : List Grant),
      o.aclResult = some gs → (∃ g ∈ gs, badGrant g) →
      (iterateObjects vb aggr bucket putObj (o :: rest) c).2.2.1 = Step.crash) ∧
    (∀ gs : List Grant, (∀ g ∈ gs, ¬ badGrant g) →
      ∃ p : Bool × Bool, classifyGrants gs = some p) := by
  refine ⟨?_, ?_, ?_⟩
  · intro gs h
    have hn := (classifyGrants_eq_none gs).mpr h
    exact ⟨hn, fun vb bucket => by simp [checkBucketACL, hn]⟩
  · intro vb aggr bucket putObj o rest c gs hacl hbad
    have hn := (classifyGrants_eq_none gs).mpr hbad
    simp [iterateObjects, hacl, hn]
  · intro gs h
    exact ⟨_, classifyGrants_eq gs h⟩

/-- Witness for claim C9: a concrete object whose single grant has a Group
grantee with nil URI crashes the object loop. -/
theorem nil_group_uri_crashes_witness :
    (iterateObjects false false "b" (fun _ => false)
      [⟨"k", some [⟨⟨GranteeType.group, none⟩, Permission.write⟩]⟩] 0).2.2.1 =
      Step.crash :=
  nil_group_uri_crashes.2.1 false false "b" (fun _ => false)
    ⟨"k", some [⟨⟨GranteeType.group, none⟩, Permission.write⟩]⟩ [] 0
    [⟨⟨GranteeType.group, none⟩, Permission.write⟩] rfl (by decide)

-- ### Claim C4

/-- Claim C4: region resolution returns the region header value when present,
fails with RegionNotFound when the response has no such header, fails with a
network error when the probe cannot be completed, and in both failure cases
the pipeline abandons the bucket without emitting a finding and without
aborting the run. -/
theorem region_resolution_spec :
    getBucketRegion (some (some "us-west-2")) = Except.ok "us-west-2" ∧
    getBucketRegion (some none) = Except.error RegionError.regionNotFound ∧
    getBucketRegion none = Except.error RegionError.networkError ∧
    ∀ (cfg : ScanConfig) (bucket : String) (env : BucketEnv) (e : RegionError),
      getBucketRegion env.regionProbe = Except.error e →
      findingsOf (processBucket cfg bucket env).1 = [] ∧
      (processBucket cfg bucket env).2 = Step.go := by
  refine ⟨by simp [getBucketRegion, headerGet], rfl, rfl, ?_⟩
  intro cfg bucket env e he
  unfold processBucket
  rw [he]
  cases cfg.verbose <;> simp [findingsOf]

/-- Witness for claim C4, at a bucket whose region probe fails outright. -/
theorem region_resolution_spec_witness :
    findingsOf (processBucket ⟨false, false, false⟩ "b"
      ⟨none, none, false, false, false, fun _ => false, []⟩).1 = [] ∧
    (processBucket ⟨false, false, false⟩ "b"
      ⟨none, none, false, false, false, fun _ => false, []⟩).2 = Step.go :=
  region_resolution_spec.2.2.2 ⟨false, false, false⟩ "b"
    ⟨none, none, false, false, false, fun _ => false, []⟩ RegionError.networkError rfl

-- ### Claim C3

/-- Claim C3: with the quick flag set the pipeline stops after the bucket-ACL
and open-listing checks — the result never depends on the upload probe, the
bucket-policy probe, the per-object probes or the object listing (so none of
them is invoked, even when the aggressive flag is also set), and every finding
is a bucket-level ACL or listing finding. -/
theorem quick_mode_skips (cfg : ScanConfig) (bucket : String) (env env2 : BucketEnv)
    (hq : cfg.quick = true)
    (hr : env.regionProbe = env2.regionProbe)
    (ha : env.bucketAcl = env2.bucketAcl)
    (hl : env.listOk = env2.listOk) :
    processBucket cfg bucket env = processBucket cfg bucket env2 ∧
    ∀ f ∈ findingsOf (processBucket cfg bucket env).1,
      f.2.2 = none ∧
      (f.1 = FindingKind.publicRead ∨ f.1 = FindingKind.publicWrite ∨
        f.1 = FindingKind.openListing) := by
  constructor
  · unfold processBucket
    rw [hr, ha, hl]
    rcases getBucketRegion env2.regionProbe with e | region
    · rfl
    · rcases h2 : checkBucketACL cfg.verbose bucket env2.bucketAcl with ⟨aclLines, s⟩
      cases s <;> simp [hq]
  · intro f hf
    unfold processBucket at hf
    rcases hg : getBucketRegion env.regionProbe with e | region <;> rw [hg] at hf
    · rw [findingsOf_iteDiag] at hf
      simp at hf
    · rcases h2 : checkBucketACL cfg.verbose bucket env.bucketAcl with ⟨aclLines, s⟩
      rw [h2] at hf
      have hfa : f ∈ findingsOf aclLines →
          f = (FindingKind.publicWrite, bucket, none) ∨
          f = (FindingKind.publicRead, bucket, none) := by
        intro hmem
        exact checkBucketACL_findings cfg.verbose bucket env.bucketAcl f
          (by rw [h2]; exact hmem)
      cases s with
      | crash =>
        simp only [findingsOf_append, findingsOf_iteDiag, List.nil_append,
          List.mem_append] at hf
        rcases hfa hf with h | h <;> subst h <;> simp
      | go =>
        rw [hq] at hf
        simp only [if_true, findingsOf_append, findingsOf_iteDiag, List.nil_append,
          List.mem_append] at hf
        rcases hf with hf | hf
        · rcases hfa hf with h | h <;> subst h <;> simp
        · have := checkOpenListing_findings cfg.verbose bucket env.listOk f hf
          subst this; simp
      | stop =>
        rw [hq] at hf
        simp only [if_true, findingsOf_append, findingsOf_iteDiag, List.nil_append,
          List.mem_append] at hf
        rcases hf with hf | hf
        · rcases hfa hf with h | h <;> subst h <;> simp
        · have := checkOpenListing_findings cfg.verbose bucket env.listOk f hf
          subst this; simp

/-- Witness for claim C3: two environments differing in every probe and
listing response give identical quick-mode results. -/
theorem quick_mode_skips_witness :
    processBucket ⟨false, true, true⟩ "b"
        ⟨some (some "r"), some [], true, false, false, fun _ => false, []⟩ =
      processBucket ⟨false, true, true⟩ "b"
        ⟨some (some "r"), some [], true, true, true, fun _ => true,
          [some [⟨"k", none⟩]]⟩ :=
  (quick_mode_skips ⟨false, true, true⟩ "b"
    ⟨some (some "r"), some [], true, false, false, fun _ => false, []⟩
    ⟨some (some "r"), some [], true, true, true, fun _ => true, [some [⟨"k", none⟩]]⟩
    rfl rfl rfl rfl).1

-- ### Claim C5

/-- Claim C5: the stage trace of every bucket task starts at ResolveRegion,
follows only the successor edges of the specified state machine
(ResolveRegion to CheckBucketACL or directly to Done on failure, then
CheckOpenListing, then Done under quick, else the optional ProbeBucket, then
EnumerateObjects, then Done), and on region-resolution failure the trace is
exactly ResolveRegion then Done, so no check, probe or enumeration runs. -/
theorem pipeline_stage_order (cfg : ScanConfig) (bucket : String) (env : BucketEnv) :
    List.Chain' (fun s t => stageNext s t = true) (stageTrace cfg bucket env) ∧
    (stageTrace cfg bucket env).head? = some Stage.resolveRegion ∧
    ∀ e : RegionError, getBucketRegion env.regionProbe = Except.error e →
      stageTrace cfg bucket env = [Stage.resolveRegion, Stage.done] := by
  obtain ⟨v, q, a⟩ := cfg
  refine ⟨?_, ?_, ?_⟩
  · unfold stageTrace
    rcases hg : getBucketRegion env.regionProbe with e | region <;> simp only [hg]
    · simp [List.chain'_cons, stageNext]
    · generalize (checkBucketACL v bucket env.bucketAcl).2 = s2
      generalize (iterateBucket v a bucket env.putObj env.pages).2.2.1 = s3
      cases s2 <;> cases s3 <;> cases q <;> cases a <;>
        simp [List.chain'_cons, stageNext]
  · unfold stageTrace
    rcases hg : getBucketRegion env.regionProbe with e | region <;> simp only [hg] <;> rfl
  · intro e he
    unfold stageTrace
    rw [he]

/-- Witness for claim C5: on a failing region probe the trace is exactly
ResolveRegion followed by Done. -/
theorem pipeline_stage_order_witness :
    stageTrace ⟨false, false, false⟩ "b"
      ⟨none, none, false, false, false, fun _ => false, []⟩ =
      [Stage.resolveRegion, Stage.done] :=
  (pipeline_stage_order ⟨false, false, false⟩ "b"
    ⟨none, none, false, false, false, fun _ => false, []⟩).2.2
    RegionError.networkError rfl

/-- Neither the findings nor the counter, status and remainder of the object
loop depend on verbosity. -/
theorem iterateObjects_vb (aggr : Bool) (bucket : String) (putObj : String → Bool)
    (objs : List S3Object) (c : Nat) :
    findingsOf (iterateObjects true aggr bucket putObj objs c).1 =
      findingsOf (iterateObjects false aggr bucket putObj objs c).1 ∧
    (iterateObjects true aggr bucket putObj objs c).2 =
      (iterateObjects false aggr bucket putObj objs c).2 := by
  induction objs generalizing c with
  | nil => simp [iterateObjects]
  | cons o rest ih =>
    cases hacl : o.aclResult with
    | none =>
      rcases hT : iterateObjects true aggr bucket putObj rest c with ⟨lsT, rT⟩
      rcases hF : iterateObjects false aggr bucket putObj rest c with ⟨lsF, rF⟩
      have ihc := ih c
      rw [hT, hF] at ihc
      have hls : findingsOf lsT = findingsOf lsF := by simpa using ihc.1
      have hr : rT = rF := by simpa using ihc.2
      subst hr
      simp only [iterateObjects, hacl, hT, hF]
      simp [findingsOf_append, findingsOf_putObjectACP, hls]
    | some grants =>
      cases hcg : classifyGrants grants with
      | none =>
        simp only [iterateObjects, hacl, hcg]
        simp [findingsOf_append, findingsOf_putObjectACP]
      | some p =>
        obtain ⟨r, w⟩ := p
        cases w with
        | true =>
          by_cases h5 : c + 1 ≥ 5
          · simp only [iterateObjects, hacl, hcg, if_pos h5]
            simp [findingsOf_append, findingsOf_putObjectACP]
          · rcases hT : iterateObjects true aggr bucket putObj rest (c + 1) with ⟨lsT, rT⟩
            rcases hF : iterateObjects false aggr bucket putObj rest (c + 1) with ⟨lsF, rF⟩
            have ihc := ih (c + 1)
            rw [hT, hF] at ihc
            have hls : findingsOf lsT = findingsOf lsF := by simpa using ihc.1
            have hr : rT = rF := by simpa using ihc.2
            subst hr
            simp only [iterateObjects, hacl, hcg, if_neg h5, hT, hF]
            cases r <;>
              simp [findingsOf_append, findingsOf_putObjectACP, hls]
        | false =>
          rcases hT : iterateObjects true aggr bucket putObj rest c with ⟨lsT, rT⟩
          rcases hF : iterateObjects false aggr bucket putObj rest c with ⟨lsF, rF⟩
          have ihc := ih c
          rw [hT, hF] at ihc
          have hls : findingsOf lsT = findingsOf lsF := by simpa using ihc.1
          have hr : rT = rF := by simpa using ihc.2
          subst hr
          simp only [iterateObjects, hacl, hcg, hT, hF]
          cases r <;>
            simp [findingsOf_append, findingsOf_putObjectACP, hls]

/-- Neither the findings nor the counter, status and remainders of the page
loop depend on verbosity. -/
theorem iteratePages_vb (aggr : Bool) (bucket : String) (putObj : String → Bool)
    (pages : List (Option (List S3Object))) (c : Nat) :
    findingsOf (iteratePages true aggr bucket putObj pages c).1 =
      findingsOf (iteratePages false aggr bucket putObj pages c).1 ∧
    (iteratePages true aggr bucket putObj pages c).2 =
      (iteratePages false aggr bucket putObj pages c).2 := by
  induction pages generalizing c with
  | nil => simp [iteratePages]
  | cons page rest ih =>
    cases page with
    | none => simp [iteratePages]
    | some objs =>
      rcases hT : iterateObjects true aggr bucket putObj objs c with ⟨lsT, cT, sT, remT⟩
      rcases hF : iterateObjects false aggr bucket putObj objs c with ⟨lsF, cF, sF, remF⟩
      have hobj := iterateObjects_vb aggr bucket putObj objs c
      rw [hT, hF] at hobj
      obtain ⟨hls, hrest⟩ := hobj
      obtain ⟨hc1, hs1, hrem1⟩ : cT = cF ∧ sT = sF ∧ remT = remF := by
        simpa using hrest
      subst hc1; subst hs1; subst hrem1
      replace hls : findingsOf lsT = findingsOf lsF := by simpa using hls
      cases sT with
      | go =>
        rcases hpT : iteratePages true aggr bucket putObj rest cT with ⟨ls2T, r2T⟩
        rcases hpF : iteratePages false aggr bucket putObj rest cT with ⟨ls2F, r2F⟩
        have ihc := ih cT
        rw [hpT, hpF] at ihc
        have hls2 : findingsOf ls2T = findingsOf ls2F := by simpa using ihc.1
        have hr2 : r2T = r2F := by simpa using ihc.2
        subst hr2
        simp only [iteratePages, hT, hF, hpT, hpF]
        simp [findingsOf_append, hls, hls2]
      | stop =>
        simp only [iteratePages, hT, hF]
        simp [hls]
      | crash =>
        simp only [iteratePages, hT, hF]
        simp [hls]

-- ### Counting lemmas for the enumeration cap

@[simp] theorem countFindings_nil (k : FindingKind) : countFindings k [] = 0 := rfl

@[simp] theorem countFindings_append (k : FindingKind) (l1 l2 : List Line) :
    countFindings k (l1 ++ l2) = countFindings k l1 + countFindings k l2 := by
  simp [countFindings, List.countP_append]

@[simp] theorem countFindings_diag_cons (k : FindingKind) (m : String) (ls : List Line) :
    countFindings k (Line.diag m :: ls) = countFindings k ls := by
  simp [countFindings, List.countP_cons]

@[simp] theorem countFindings_finding_cons (k k2 : FindingKind) (b : String)
    (key : Option String) (col : Bool) (ls : List Line) :
    countFindings k (Line.finding k2 b key col :: ls) =
      countFindings k ls + if k2 = k then 1 else 0 := by
  by_cases h : k2 = k <;> simp [countFindings, List.countP_cons, h]

@[simp] theorem countFindings_ite (k : FindingKind) (b : Bool) (l1 l2 : List Line) :
    countFindings k (if b then l1 else l2) =
      if b then countFindings k l1 else countFindings k l2 := by
  cases b <;> rfl

@[simp] theorem countPW_putObjectACP (vb : Bool) (b key : String) (ok : Bool) :
    countFindings FindingKind.publicWrite (putObjectACP vb b key ok) = 0 := by
  cases vb <;> cases ok <;> simp [putObjectACP]

@[simp] theorem countPR_putObjectACP (vb : Bool) (b key : String) (ok : Bool) :
    countFindings FindingKind.publicRead (putObjectACP vb b key ok) = 0 := by
  cases vb <;> cases ok <;> simp [putObjectACP]

/-- Unfolding of a publicly-writable object. -/
theorem objWrite_spec (o : S3Object) (h : objWrite o = true) :
    ∃ gs r, o.aclResult = some gs ∧ classifyGrants gs = some (r, true) := by
  cases hacl : o.aclResult with
  | none => simp [objWrite, hacl] at h
  | some gs =>
    simp only [objWrite, hacl] at h
    cases hcg : classifyGrants gs with
    | none => simp only [hcg] at h; cases h
    | some p =>
      obtain ⟨r, w⟩ := p
      simp only [hcg] at h
      cases w with
      | false => cases h
      | true => exact ⟨gs, r, rfl, hcg⟩

/-- Unfolding of a publicly-readable, non-writable object. -/
theorem objReadOnly_spec (o : S3Object) (h : objReadOnly o = true) :
    ∃ gs, o.aclResult = some gs ∧ classifyGrants gs = some (true, false) := by
  cases hacl : o.aclResult with
  | none => simp [objReadOnly, hacl] at h
  | some gs =>
    simp only [objReadOnly, hacl] at h
    cases hcg : classifyGrants gs with
    | none => simp only [hcg] at h; cases h
    | some p =>
      obtain ⟨r, w⟩ := p
      simp only [hcg] at h
      cases r <;> cases w <;> simp at h <;> exact ⟨gs, rfl, hcg⟩

/-- Object-loop behaviour on a page of publicly-writable objects: starting
below the cap, the loop stops with counter 5 as soon as it has emitted the
missing 5 - c write findings, leaving the rest of the page unexamined;
if the page is too short it emits one write finding per object and goes on. -/
theorem iterateObjects_allWrite (vb aggr : Bool) (bucket : String)
    (putObj : String → Bool) :
    ∀ (objs : List S3Object) (c : Nat),
      (∀ o ∈ objs, objWrite o = true) → c < 5 →
      ((5 - c ≤ objs.length →
        ∃ ls rem, iterateObjects vb aggr bucket putObj objs c = (ls, 5, Step.stop, rem) ∧
          countFindings FindingKind.publicWrite ls = 5 - c ∧
          rem.length = objs.length - (5 - c)) ∧
       (objs.length < 5 - c →
        ∃ ls, iterateObjects vb aggr bucket putObj objs c =
            (ls, c + objs.length, Step.go, []) ∧
          countFindings FindingKind.publicWrite ls = objs.length)) := by
  intro objs
  induction objs with
  | nil =>
    intro c hall hc
    constructor
    · intro hle
      simp at hle
      omega
    · intro _
      exact ⟨[], by simp [iterateObjects], rfl⟩
  | cons o rest ih =>
    intro c hall hc
    obtain ⟨gs, r, hacl, hcg⟩ := objWrite_spec o (hall o (List.mem_cons_self o rest))
    have hrest : ∀ x ∈ rest, objWrite x = true :=
      fun x hx => hall x (List.mem_cons_of_mem o hx)
    by_cases h5 : c + 1 ≥ 5
    · have hc4 : c = 4 := by omega
      subst hc4
      constructor
      · intro _
        simp only [iterateObjects, hacl, hcg, if_pos h5]
        refine ⟨_, _, rfl, ?_, ?_⟩
        · simp
        · simp
      · intro hlt
        simp at hlt
    · have hc1 : c + 1 < 5 := by omega
      have ihr := ih (c + 1) hrest hc1
      constructor
      · intro hle
        have hle2 : 5 - (c + 1) ≤ rest.length := by
          simp at hle
          omega
        obtain ⟨ls, rem, heq, hcount, hlen⟩ := ihr.1 hle2
        simp only [iterateObjects, hacl, hcg, if_neg h5, heq]
        refine ⟨_, _, rfl, ?_, ?_⟩
        · cases r <;> simp [hcount] <;> omega
        · simp [hlen]
          omega
      · intro hlt
        have hlt2 : rest.length < 5 - (c + 1) := by
          simp at hlt
          omega
        obtain ⟨ls, heq, hcount⟩ := ihr.2 hlt2
        have hcnt : c + (o :: rest).length = c + 1 + rest.length := by
          simp
          omega
        rw [hcnt]
        simp only [iterateObjects, hacl, hcg, if_neg h5, heq]
        refine ⟨_, rfl, ?_⟩
        cases r <;> simp [hcount]

/-- Page-loop behaviour on a listing of publicly-writable objects: starting
below the cap, the loop stops with counter 5 after emitting the missing
write findings, leaving the rest of the stopping page unexamined and the
later pages unfetched. -/
theorem iteratePages_allWrite (vb aggr : Bool) (bucket : String)
    (putObj : String → Bool) :
    ∀ (pages : List (Option (List S3Object))) (c : Nat),
      (∀ p ∈ pages, ∃ objs, p = some objs ∧ ∀ o ∈ objs, objWrite o = true) →
      c < 5 →
      ((5 - c ≤ pagesLen pages →
        ∃ ls remO remP, iteratePages vb aggr bucket putObj pages c =
            (ls, 5, Step.stop, remO, remP) ∧
          countFindings FindingKind.publicWrite ls = 5 - c ∧
          remO.length + pagesLen remP = pagesLen pages - (5 - c)) ∧
       (pagesLen pages < 5 - c →
        ∃ ls, iteratePages vb aggr bucket putObj pages c =
            (ls, c + pagesLen pages, Step.go, [], []) ∧
          countFindings FindingKind.publicWrite ls = pagesLen pages)) := by
  intro pages
  induction pages with
  | nil =>
    intro c hall hc
    constructor
    · intro hle
      simp [pagesLen] at hle
      omega
    · intro _
      exact ⟨[], by simp [iteratePages, pagesLen], rfl⟩
  | cons page rest ih =>
    intro c hall hc
    obtain ⟨objs, hpage, hobjs⟩ := hall page (List.mem_cons_self page rest)
    subst hpage
    have hrest : ∀ p ∈ rest, ∃ os, p = some os ∧ ∀ o ∈ os, objWrite o = true :=
      fun p hp => hall p (List.mem_cons_of_mem _ hp)
    have hobj := iterateObjects_allWrite vb aggr bucket putObj objs c hobjs hc
    rcases le_or_lt (5 - c) objs.length with hle1 | hlt1
    · obtain ⟨ls, rem, heq, hcount, hlen⟩ := hobj.1 hle1
      constructor
      · intro _
        have harith : rem.length + pagesLen rest =
            pagesLen (some objs :: rest) - (5 - c) := by
          simp [pagesLen]
          clear ih hobj hall hrest
          omega
        simp only [iteratePages, heq]
        exact ⟨_, _, _, rfl, hcount, harith⟩
      · intro hlt
        simp [pagesLen] at hlt
        clear ih hobj hall hrest
        omega
    · obtain ⟨ls, heq, hcount⟩ := hobj.2 hlt1
      have hc2 : c + objs.length < 5 := by omega
      have ihr := ih (c + objs.length) hrest hc2
      constructor
      · intro hle
        have hle2 : 5 - (c + objs.length) ≤ pagesLen rest := by
          simp [pagesLen] at hle
          clear ih ihr hobj hall hrest
          omega
        obtain ⟨ls2, remO, remP, heq2, hcount2, hlen2⟩ := ihr.1 hle2
        have hcountAll : countFindings FindingKind.publicWrite (ls ++ ls2) = 5 - c := by
          rw [countFindings_append, hcount, hcount2]
          clear ih ihr hobj hall hrest
          omega
        have harith : remO.length + pagesLen remP =
            pagesLen (some objs :: rest) - (5 - c) := by
          simp [pagesLen]
          clear ih ihr hobj hall hrest
          omega
        simp only [iteratePages, heq, heq2]
        exact ⟨_, _, _, rfl, hcountAll, harith⟩
      · intro hlt
        have hlt2 : pagesLen rest < 5 - (c + objs.length) := by
          simp [pagesLen] at hlt
          clear ih ihr hobj hall hrest
          omega
        obtain ⟨ls2, heq2, hcount2⟩ := ihr.2 hlt2
        have hcountAll : countFindings FindingKind.publicWrite (ls ++ ls2) =
            pagesLen (some objs :: rest) := by
          rw [countFindings_append, hcount, hcount2]
          simp [pagesLen]
        have hcnt : c + pagesLen (some objs :: rest) =
            c + objs.length + pagesLen rest := by
          simp [pagesLen]
          clear ih ihr hobj hall hrest
          omega
        rw [hcnt]
        simp only [iteratePages, heq, heq2]
        exact ⟨_, rfl, hcountAll⟩

-- ### Claim C6

/-- Claim C6, counterexample: with verbose mode on, a failing upload probe
emits no diagnostic for the failure — its output is exactly the attempt
narration that is also emitted when the probe succeeds, and the bucket-policy
probe behaves the same way. -/
theorem probe_failure_silent_cex :
    testUpload true "b" false = [Line.diag "Attempting to upload file to b"] ∧
    putBucketACP true "b" false = [Line.diag "Attempting to write bucket ACP to b"] ∧
    testUpload true "b" true =
      [Line.diag "Attempting to upload file to b",
       Line.finding FindingKind.uploadAllowed "b" none true] := by
  exact ⟨rfl, rfl, rfl⟩

/-- Claim C6 as amended: with verbose off, every non-fatal error path emits
nothing; with verbose on, region, bucket-ACL-fetch, pagination and
object-policy-probe failures emit a one-line diagnostic, while upload and
bucket-policy probe failures emit nothing beyond the attempt narration that
precedes the call in either outcome. -/
theorem nonfatal_error_output :
    (∀ (cfg : ScanConfig) (bucket : String) (env : BucketEnv) (e : RegionError),
      getBucketRegion env.regionProbe = Except.error e →
      processBucket cfg bucket env =
        ((if cfg.verbose then [Line.diag ("Unable to get the region for " ++ bucket)]
          else []), Step.go)) ∧
    (∀ (vb : Bool) (bucket : String),
      checkBucketACL vb bucket none =
        ((if vb then [Line.diag ("Failed to get ACL for bucket " ++ bucket)] else []),
         Step.go)) ∧
    (∀ (vb aggr : Bool) (bucket : String) (putObj : String → Bool)
        (rest : List (Option (List S3Object))) (c : Nat),
      iteratePages vb aggr bucket putObj (none :: rest) c =
        ((if vb then [Line.diag ("Failed to iterate page in bucket " ++ bucket)] else []),
         c, Step.go, [], rest)) ∧
    (∀ (vb : Bool) (bucket key : String),
      putObjectACP vb bucket key false =
        (if vb then
          [Line.diag ("Attempting to write object ACP to " ++ bucket ++ "/" ++ key)]
         else []) ++
        (if vb then
          [Line.diag ("Failed to write object ACP to " ++ bucket ++ "/" ++ key)]
         else [])) ∧
    (∀ (vb : Bool) (bucket : String),
      testUpload vb bucket false =
        (if vb then [Line.diag ("Attempting to upload file to " ++ bucket)] else []) ∧
      putBucketACP vb bucket false =
        (if vb then [Line.diag ("Attempting to write bucket ACP to " ++ bucket)] else [])) := by
  refine ⟨?_, ?_, ?_, ?_, ?_⟩
  · intro cfg bucket env e he
    unfold processBucket
    rw [he]
  · intro vb bucket
    rfl
  · intro vb aggr bucket putObj rest c
    rfl
  · intro vb bucket key
    simp [putObjectACP]
  · intro vb bucket
    exact ⟨by simp [testUpload], by simp [putBucketACP]⟩

/-- Witness for the amended claim C6, at a verbose run whose region probe
fails. -/
theorem nonfatal_error_output_witness :
    processBucket ⟨true, false, false⟩ "b"
      ⟨none, none, false, false, false, fun _ => false, []⟩ =
      ([Line.diag ("Unable to get the region for " ++ "b")], Step.go) :=
  nonfatal_error_output.1 ⟨true, false, false⟩ "b"
    ⟨none, none, false, false, false, fun _ => false, []⟩ RegionError.networkError rfl

-- ### Claim C7

/-- Claim C7: for every configuration and every sequence of remote responses,
the verbose and non-verbose runs of the bucket pipeline report exactly the
same findings and end the same way — verbosity only adds narration and color;
and a failed probe emits no finding in either mode. -/
theorem verbose_only_presentation :
    (∀ (q a : Bool) (bucket : String) (env : BucketEnv),
      findingsOf (processBucket ⟨true, q, a⟩ bucket env).1 =
        findingsOf (processBucket ⟨false, q, a⟩ bucket env).1 ∧
      (processBucket ⟨true, q, a⟩ bucket env).2 =
        (processBucket ⟨false, q, a⟩ bucket env).2) ∧
    (∀ (vb : Bool) (bucket key : String),
      findingsOf (testUpload vb bucket false) = [] ∧
      findingsOf (putBucketACP vb bucket false) = [] ∧
      findingsOf (putObjectACP vb bucket key false) = []) := by
  constructor
  · intro q a bucket env
    rcases hg : getBucketRegion env.regionProbe with e | region <;>
      simp only [processBucket, hg]
    · simp
    · rcases hT : checkBucketACL true bucket env.bucketAcl with ⟨aT, sT⟩
      rcases hF : checkBucketACL false bucket env.bucketAcl with ⟨aF, sF⟩
      have hvb := checkBucketACL_vb bucket env.bucketAcl
      rw [hT, hF] at hvb
      have haf : findingsOf aT = findingsOf aF := by simpa using hvb.1
      have hsf : sT = sF := by simpa using hvb.2
      subst hsf
      cases sT with
      | crash => simp [findingsOf_append, haf]
      | go =>
        cases q with
        | true => simp [findingsOf_append, haf, findingsOf_checkOpenListing]
        | false =>
          rcases hpT : iteratePages true a bucket env.putObj env.pages 0 with ⟨pT, rT⟩
          rcases hpF : iteratePages false a bucket env.putObj env.pages 0 with ⟨pF, rF⟩
          have hpv := iteratePages_vb a bucket env.putObj env.pages 0
          rw [hpT, hpF] at hpv
          have hpf : findingsOf pT = findingsOf pF := by simpa using hpv.1
          have hpr : rT = rF := by simpa using hpv.2
          subst hpr
          simp only [iterateBucket, hpT, hpF]
          cases a <;>
            simp [findingsOf_append, haf, findingsOf_checkOpenListing,
              findingsOf_testUpload, findingsOf_putBucketACP, hpf]
      | stop =>
        cases q with
        | true => simp [findingsOf_append, haf, findingsOf_checkOpenListing]
        | false =>
          rcases hpT : iteratePages true a bucket env.putObj env.pages 0 with ⟨pT, rT⟩
          rcases hpF : iteratePages false a bucket env.putObj env.pages 0 with ⟨pF, rF⟩
          have hpv := iteratePages_vb a bucket env.putObj env.pages 0
          rw [hpT, hpF] at hpv
          have hpf : findingsOf pT = findingsOf pF := by simpa using hpv.1
          have hpr : rT = rF := by simpa using hpv.2
          subst hpr
          simp only [iterateBucket, hpT, hpF]
          cases a <;>
            simp [findingsOf_append, haf, findingsOf_checkOpenListing,
              findingsOf_testUpload, findingsOf_putBucketACP, hpf]
  · intro vb bucket key
    exact ⟨by simp [findingsOf_testUpload], by simp [findingsOf_putBucketACP],
      by simp [findingsOf_putObjectACP]⟩

-- ### Claim C2

/-- Claim C2: on a bucket whose listing holds at least five objects, each
classifying as publicly writable, enumeration emits exactly five PublicWrite
object findings, the issue counter ends at five, and the run aborts at the
fifth finding: everything past the fifth object — the rest of its page and
all later pages — is left unexamined and unfetched. -/
theorem enumeration_cap_five (vb aggr : Bool) (bucket : String)
    (putObj : String → Bool) (pages : List (Option (List S3Object)))
    (hall : ∀ p ∈ pages, ∃ objs, p = some objs ∧ ∀ o ∈ objs, objWrite o = true)
    (h5 : 5 ≤ pagesLen pages) :
    ∃ ls remO remP,
      iterateBucket vb aggr bucket putObj pages = (ls, 5, Step.stop, remO, remP) ∧
      countFindings FindingKind.publicWrite ls = 5 ∧
      remO.length + pagesLen remP = pagesLen pages - 5 := by
  have h := (iteratePages_allWrite vb aggr bucket putObj pages 0 hall (by omega)).1
    (by omega)
  simpa [iterateBucket] using h

/-- Witness for claim C2: a single page of six publicly-writable objects
yields five write findings, a counter of five, an early stop and one
unexamined object. -/
theorem enumeration_cap_five_witness :
    ∃ ls remO remP,
      iterateBucket false false "b" (fun _ => false)
        [some [⟨"1", some [⟨⟨GranteeType.group, some allUsersURI⟩, Permission.write⟩]⟩,
               ⟨"2", some [⟨⟨GranteeType.group, some allUsersURI⟩, Permission.write⟩]⟩,
               ⟨"3", some [⟨⟨GranteeType.group, some allUsersURI⟩, Permission.write⟩]⟩,
               ⟨"4", some [⟨⟨GranteeType.group, some allUsersURI⟩, Permission.write⟩]⟩,
               ⟨"5", some [⟨⟨GranteeType.group, some allUsersURI⟩, Permission.write⟩]⟩,
               ⟨"6", some [⟨⟨GranteeType.group, some allUsersURI⟩, Permission.write⟩]⟩]] =
        (ls, 5, Step.stop, remO, remP) ∧
      countFindings FindingKind.publicWrite ls = 5 ∧
      remO.length + pagesLen remP = 1 :=
  enumeration_cap_five false false "b" (fun _ => false) _
    (by
      intro p hp
      simp only [List.mem_singleton] at hp
      subst hp
      exact ⟨_, rfl, by decide⟩)
    (by decide)

-- ### Claim C10

/-- Claim C10: only PublicWrite findings advance the issue counter — a page
of read-only-public objects emits one PublicRead finding per object with the
counter unchanged and no early exit — and an object that is both publicly
writable and publicly readable emits no PublicRead finding when its
PublicWrite finding is the fifth, because the early return fires first. -/
theorem cap_counts_only_write :
    (∀ (vb aggr : Bool) (bucket : String) (putObj : String → Bool)
        (objs : List S3Object) (c : Nat),
      (∀ o ∈ objs, objReadOnly o = true) →
      ∃ ls, iterateObjects vb aggr bucket putObj objs c = (ls, c, Step.go, []) ∧
        countFindings FindingKind.publicRead ls = objs.length ∧
        countFindings FindingKind.publicWrite ls = 0) ∧
    (∀ (vb aggr : Bool) (bucket : String) (putObj : String → Bool)
        (o : S3Object) (rest : List S3Object) (gs : List Grant),
      o.aclResult = some gs → classifyGrants gs = some (true, true) →
      ∃ ls, iterateObjects vb aggr bucket putObj (o :: rest) 4 =
          (ls, 5, Step.stop, rest) ∧
        countFindings FindingKind.publicWrite ls = 1 ∧
        countFindings FindingKind.publicRead ls = 0) := by
  constructor
  · intro vb aggr bucket putObj objs
    induction objs with
    | nil =>
      intro c hall
      exact ⟨[], by simp [iterateObjects], by simp, by simp⟩
    | cons o rest ih =>
      intro c hall
      obtain ⟨gs, hacl, hcg⟩ := objReadOnly_spec o (hall o (List.mem_cons_self o rest))
      have hrest : ∀ x ∈ rest, objReadOnly x = true :=
        fun x hx => hall x (List.mem_cons_of_mem o hx)
      obtain ⟨ls, heq, hpr, hpw⟩ := ih c hrest
      simp only [iterateObjects, hacl, hcg, heq]
      refine ⟨_, rfl, ?_, ?_⟩
      · simp [hpr]
      · simp [hpw]
  · intro vb aggr bucket putObj o rest gs hacl hcg
    have h5 : (4 : Nat) + 1 ≥ 5 := by omega
    simp only [iterateObjects, hacl, hcg, if_pos h5]
    refine ⟨_, rfl, ?_, ?_⟩
    · simp
    · simp

/-- Witness for claim C10: a first object that is both publicly writable and
publicly readable, reached with four issues already counted, yields the fifth
write finding, an early stop, and no read finding. -/
theorem cap_counts_only_write_witness :
    ∃ ls, iterateObjects false false "b" (fun _ => false)
        [⟨"k", some [⟨⟨GranteeType.group, some allUsersURI⟩, Permission.write⟩,
                     ⟨⟨GranteeType.group, some allUsersURI⟩, Permission.read⟩]⟩] 4 =
        (ls, 5, Step.stop, []) ∧
      countFindings FindingKind.publicWrite ls = 1 ∧
      countFindings FindingKind.publicRead ls = 0 :=
  cap_counts_only_write.2 false false "b" (fun _ => false)
    ⟨"k", some [⟨⟨GranteeType.group, some allUsersURI⟩, Permission.write⟩,
                ⟨⟨GranteeType.group, some allUsersURI⟩, Permission.read⟩]⟩ []
    [⟨⟨GranteeType.group, some allUsersURI⟩, Permission.write⟩,
     ⟨⟨GranteeType.group, some allUsersURI⟩, Permission.read⟩] rfl (by decide)

-- ### Worker-pool lemmas

theorem busyBuckets_cons (w : WStatus) (t : List WStatus) :
    busyBuckets (w :: t) = busyOf w ++ busyBuckets t := by
  simp [busyBuckets]

theorem busyBuckets_replicate_idle (n : Nat) :
    busyBuckets (List.replicate n WStatus.idle) = [] := by
  induction n with
  | zero => rfl
  | succ n ih => simp [List.replicate_succ, busyBuckets_cons, busyOf, ih]

theorem busyBuckets_length_le (ws : List WStatus) :
    (busyBuckets ws).length ≤ ws.length := by
  induction ws with
  | nil => simp [busyBuckets]
  | cons w t ih =>
    rw [busyBuckets_cons, List.length_append]
    cases w <;> simp [busyOf] <;> omega

theorem busyBuckets_all_exited (ws : List WStatus)
    (h : ∀ w ∈ ws, w = WStatus.exited) : busyBuckets ws = [] := by
  induction ws with
  | nil => rfl
  | cons w t ih =>
    rw [busyBuckets_cons, h w (List.mem_cons_self w t)]
    exact ih fun x hx => h x (List.mem_cons_of_mem w hx)

/-- Replacing the worker at slot `i` exchanges its bucket load: the busy
buckets after the write, together with the old load, match the busy buckets
before, together with the new load. -/
theorem busyBuckets_set (ws : List WStatus) (i : Nat) (v w : WStatus)
    (h : ws[i]? = some w) :
    (busyBuckets (ws.set i v) : Multiset String) + (busyOf w : List String) =
      (busyBuckets ws : Multiset String) + (busyOf v : List String) := by
  induction ws generalizing i with
  | nil => simp at h
  | cons x t ih =>
    cases i with
    | zero =>
      simp only [List.getElem?_cons_zero, Option.some.injEq] at h
      subst h
      simp only [List.set_cons_zero, busyBuckets_cons, ← Multiset.coe_add]
      abel
    | succ j =>
      simp only [List.getElem?_cons_succ] at h
      have ihj := ih j h
      simp only [List.set_cons_succ, busyBuckets_cons, ← Multiset.coe_add]
      rw [add_assoc, add_assoc, ihj]

/-- One pool transition preserves the owed multiset of buckets and the
worker count. -/
theorem poolStep_inFlight {s t : PoolState} (h : PoolStep s t) :
    inFlight t = inFlight s ∧ t.workers.length = s.workers.length := by
  cases h with
  | handoff b rest i hp hc hw =>
    refine ⟨?_, by simp⟩
    have hb := busyBuckets_set s.workers i (WStatus.busy b) WStatus.idle hw
    simp only [busyOf] at hb
    unfold inFlight
    simp only [hp]
    rw [show ((b :: rest : List String) : Multiset String) =
      (([b] : List String) : Multiset String) + (rest : Multiset String) by
        rw [Multiset.coe_add]; rfl]
    simp only [Multiset.coe_nil, add_zero] at hb
    rw [hb]
    abel
  | finish b i hw =>
    refine ⟨?_, by simp⟩
    have hb := busyBuckets_set s.workers i WStatus.idle (WStatus.busy b) hw
    simp only [busyOf] at hb
    simp only [Multiset.coe_nil, add_zero] at hb
    unfold inFlight
    simp only []
    rw [show ((s.processed ++ [b] : List String) : Multiset String) =
      (s.processed : Multiset String) + (([b] : List String) : Multiset String) from
        (Multiset.coe_add _ _).symm]
    rw [← hb]
    abel
  | closeChan hp hc =>
    exact ⟨by unfold inFlight; simp [hp], rfl⟩
  | workerExit i hp hc hw =>
    refine ⟨?_, by simp⟩
    have hb := busyBuckets_set s.workers i WStatus.exited WStatus.idle hw
    simp only [busyOf] at hb
    simp only [Multiset.coe_nil, add_zero] at hb
    unfold inFlight
    simp only [hp, hb]

/-- Every reachable pool state owes the input exactly, with a fixed worker
count. -/
theorem poolReachable_invariant (K : Nat) (input : List String) (s : PoolState)
    (h : poolReachable K input s) :
    inFlight s = (input : Multiset String) ∧ s.workers.length = K := by
  induction h with
  | refl =>
    constructor
    · unfold inFlight initState
      simp [busyBuckets_replicate_idle]
    · simp [initState]
  | tail _ hstep ih =>
    obtain ⟨h1, h2⟩ := poolStep_inFlight hstep
    exact ⟨h1.trans ih.1, h2.trans ih.2⟩

-- ### Claim C8

/-- Claim C8: in the worker-pool model of main(), every reachable state has
at most `K` pipelines active and owes the input exactly (no bucket dropped or
duplicated); when the process exits — input sent, channel closed, every
worker finished — the processed buckets are exactly the input, each once; and
the only transition that consumes input is an unbuffered rendezvous handing
the next bucket to an idle worker, so the producer blocks until a worker is
free. -/
theorem worker_pool_exactly_once (K : Nat) (input : List String) (s : PoolState)
    (h : poolReachable K input s) :
    ((busyBuckets s.workers).length ≤ K ∧ s.workers.length = K ∧
      inFlight s = (input : Multiset String)) ∧
    (poolTerminal s → (s.processed : Multiset String) = (input : Multiset String)) ∧
    (∀ t : PoolState, PoolStep s t → t.pending.length < s.pending.length →
      ∃ i b rest, s.pending = b :: rest ∧ s.workers[i]? = some WStatus.idle ∧
        t.workers = s.workers.set i (WStatus.busy b) ∧ t.pending = rest ∧
        t.processed = s.processed) := by
  obtain ⟨hinv, hlen⟩ := poolReachable_invariant K input s h
  refine ⟨⟨?_, hlen, hinv⟩, ?_, ?_⟩
  · exact hlen ▸ busyBuckets_length_le s.workers
  · intro ⟨hpend, _, hexit⟩
    rw [← hinv]
    unfold inFlight
    rw [hpend, busyBuckets_all_exited s.workers hexit]
    simp
  · intro t hstep hlt
    cases hstep with
    | handoff b rest i hp hc hw =>
      exact ⟨i, b, rest, hp, hw, rfl, rfl, rfl⟩
    | finish b i hw => simp at hlt
    | closeChan hp hc =>
      rw [hp] at hlt
      simp at hlt
    | workerExit i hp hc hw =>
      rw [hp] at hlt
      simp at hlt

/-- Witness for claim C8: with one worker and the single input bucket, the
exit state reached by handoff, finish, close and worker exit has processed
exactly that bucket. -/
theorem worker_pool_exactly_once_witness :
    ((busyBuckets ([WStatus.exited]) ).length ≤ 1 ∧
      ([WStatus.exited] : List WStatus).length = 1 ∧
      inFlight ⟨[], true, [WStatus.exited], ["b"]⟩ =
        ((["b"] : List String) : Multiset String)) ∧
    (((⟨[], true, [WStatus.exited], ["b"]⟩ : PoolState).processed : Multiset String) =
      ((["b"] : List String) : Multiset String)) := by
  have h1 : PoolStep (initState 1 ["b"]) ⟨[], false, [WStatus.busy "b"], []⟩ :=
    PoolStep.handoff (initState 1 ["b"]) "b" [] 0 rfl rfl rfl
  have h2 : PoolStep ⟨[], false, [WStatus.busy "b"], []⟩
      ⟨[], false, [WStatus.idle], ["b"]⟩ :=
    PoolStep.finish ⟨[], false, [WStatus.busy "b"], []⟩ "b" 0 rfl
  have h3 : PoolStep ⟨[], false, [WStatus.idle], ["b"]⟩
      ⟨[], true, [WStatus.idle], ["b"]⟩ :=
    PoolStep.closeChan ⟨[], false, [WStatus.idle], ["b"]⟩ rfl rfl
  have h4 : PoolStep ⟨[], true, [WStatus.idle], ["b"]⟩
      ⟨[], true, [WStatus.exited], ["b"]⟩ :=
    PoolStep.workerExit ⟨[], true, [WStatus.idle], ["b"]⟩ 0 rfl rfl rfl
  have hreach : poolReachable 1 ["b"] ⟨[], true, [WStatus.exited], ["b"]⟩ :=
    Relation.ReflTransGen.tail
      (Relation.ReflTransGen.tail
        (Relation.ReflTransGen.tail
          (Relation.ReflTransGen.tail Relation.ReflTransGen.refl h1) h2) h3) h4
  have hmain := worker_pool_exactly_once 1 ["b"] ⟨[], true, [WStatus.exited], ["b"]⟩ hreach
  exact ⟨hmain.1, hmain.2.1 ⟨rfl, rfl, by decide⟩⟩

end S3Warden
